import Mathlib

/-!
Verification development for the GraphQL-to-MCP tool generator
(`tool-generator.ts`) and the call-time executor (`cli.ts`).

The type graph, the selection-synthesis engine with its two caches, the
JSON parameter-schema synthesizer, the registry builder and the
required-parameter validator are embedded as executable Lean functions,
translated from the TypeScript source.  JavaScript `Map`s become
association lists (newest binding first, mirroring `Map.set`/`Map.get`),
and the cache record additionally keeps a ghost log of every `set`
performed on the full-selection cache, so that overwrite behaviour can be
observed; the log influences nothing else.
-/

namespace GraphQLForge

/-- Association-list lookup keyed by strings (models `Map.get`). -/
def alookup {α : Type} : List (String × α) → String → Option α
  | [], _ => none
  | (k, v) :: rest, key => if k = key then some v else alookup rest key

/-- JavaScript `Array.prototype.join(sep)`. -/
def joinSep (sep : String) : List String → String
  | [] => ""
  | [x] => x
  | x :: y :: xs => x ++ sep ++ joinSep sep (y :: xs)

/-- JavaScript `'  '.repeat(n)` — the two-space indentation unit. -/
def indentStr : Nat → String
  | 0 => ""
  | n + 1 => "  " ++ indentStr n

/-- Does `pat` occur at the start of `s`? (char-list level, executable). -/
def matchesAt : List Char → List Char → Bool
  | [], _ => true
  | _ :: _, [] => false
  | p :: ps, c :: cs => p == c && matchesAt ps cs

/-- Does `pat` occur somewhere inside `s`? (char-list level). -/
def containsSeq (pat : List Char) : List Char → Bool
  | [] => matchesAt pat []
  | c :: cs => matchesAt pat (c :: cs) || containsSeq pat cs

/-- Substring test on strings, via the char-list helpers. -/
def strHasSub (s pat : String) : Bool :=
  containsSeq pat.data s.data

/-- Does `s` start with `pat`? -/
def strStarts (s pat : String) : Bool :=
  matchesAt pat.data s.data

/-- GraphQL type reference: a named base type wrapped in non-null / list
modifier layers (`GraphQLType` with `isNonNullType` / `isListType`). -/
inductive GType where
  | named (name : String)
  | nonNull (ofType : GType)
  | list (ofType : GType)
deriving DecidableEq

/-- The six named-type kinds distinguished by the source's predicates
(`isScalarType`, `isEnumType`, `isObjectType`, `isInterfaceType`,
`isUnionType`, `isInputObjectType`). -/
inductive TypeKind where
  | scalar | enum | object | iface | union | inputObject
deriving DecidableEq

/-- One argument of a root field (`GraphQLArgument`).  `hasDefault` models
`arg.defaultValue !== undefined`.  Argument descriptions are carried by
no claim and are omitted. -/
structure GArg where
  name : String
  type : GType
  hasDefault : Bool
deriving DecidableEq

/-- An output field of an object/interface type (`GraphQLField`):
its name (the `Object.entries` key), result type, argument list and
doc-string (`field.description`, absent = `undefined`). -/
structure FieldDef where
  name : String
  type : GType
  args : List GArg
  descr : Option String
deriving DecidableEq

/-- An input-object field: name, declared type, and whether a default
value is declared for it (`field.defaultValue !== undefined`). -/
structure InputFieldDef where
  name : String
  type : GType
  hasDefault : Bool
deriving DecidableEq

/-- A named type of the schema.  `fields` is meaningful for
OBJECT/INTERFACE, `enumValues` for ENUM, `inputFields` for INPUT_OBJECT;
the lists are in `Object.entries` order, whose keys are unique. -/
structure TypeDef where
  name : String
  kind : TypeKind
  fields : List FieldDef := []
  enumValues : List String := []
  inputFields : List InputFieldDef := []
deriving DecidableEq

/-- The navigable type graph produced by `buildClientSchema`: the type
map in iteration order plus the names of the root operation types. -/
structure Schema where
  types : List TypeDef
  queryType : Option String := none
  mutationType : Option String := none
deriving DecidableEq

/-- Look a named type up in the type map. -/
def findType (sch : Schema) (n : String) : Option TypeDef :=
  sch.types.find? (fun td => td.name = n)

/-- `actualType.getFields()` for a type referenced by name (empty when the
name does not resolve, which cannot happen for a well-formed graph). -/
def getFieldsOf (sch : Schema) (n : String) : List FieldDef :=
  match findType sch n with
  | some td => td.fields
  | none => []

/-- The two process-wide selection caches (`typeFieldSelectionCache` and
`minimalFieldSelectionCache`), plus `fullWrites`, a ghost log recording
every `typeFieldSelectionCache.set(name, value)` in order.  The log is
write-only instrumentation: no function reads it. -/
structure Caches where
  full : List (String × String)
  minimal : List (String × String)
  fullWrites : List (String × String)
deriving DecidableEq

/-- The empty cache state. -/
def emptyCaches : Caches := ⟨[], [], []⟩

/-- `typeFieldSelectionCache.set(n, v)` — newest binding first, and the
ghost log records the write. -/
def setFull (st : Caches) (n v : String) : Caches :=
  { st with full := (n, v) :: st.full, fullWrites := st.fullWrites ++ [(n, v)] }

/-- `minimalFieldSelectionCache.set(n, v)`. -/
def setMinimal (st : Caches) (n v : String) : Caches :=
  { st with minimal := (n, v) :: st.minimal }

/-- `getMinimalFieldSelection` (lines 66–87): cached single-field fallback
selection — `{ documentId }` if a field of that name exists, else
`{ id }`, else the empty string. -/
def getMinimalFieldSelection (sch : Schema) (tname : String) (st : Caches) :
    String × Caches :=
  match alookup st.minimal tname with
  | some m => (m, st)
  | none =>
    let flds := getFieldsOf sch tname
    let m :=
      if flds.any (fun f => f.name = "documentId") then "\x7b documentId \x7d"
      else if flds.any (fun f => f.name = "id") then "\x7b id \x7d"
      else ""
    (m, setMinimal st tname m)

/-- The wrapper stripping applied to a field's declared type before the
kind dispatch (lines 112–115, and again lines 155–164 — the source
repeats the identical three-step sequence in both places): strip one
non-null layer, then one list layer, then one further non-null layer. -/
def unwrapTriple (t : GType) : GType :=
  let t1 := match t with | .nonNull u => u | x => x
  let t2 := match t1 with | .list u => u | x => x
  match t2 with | .nonNull u => u | x => x

/-- How the per-field kind dispatch of `generateFullFieldSelection` sees a
(possibly still wrapped) type: a composite OBJECT/INTERFACE reference
with its name, a UNION, or anything else (scalar, enum, input object,
unresolved name, or a type still carrying a list wrapper). -/
inductive FieldKindView where
  | comp (name : String)
  | uni
  | other
deriving DecidableEq

/-- The kind dispatch on a stripped field type: `isObjectType(t) ||
isInterfaceType(t)`, `isUnionType(t)`, otherwise simple. -/
def classifyCheckType (sch : Schema) : GType → FieldKindView
  | .named n =>
    match findType sch n with
    | some td =>
      match td.kind with
      | .object => .comp n
      | .iface => .comp n
      | .union => .uni
      | _ => .other
    | none => .other
  | _ => .other

/-- One iteration of the field loop of `generateFullFieldSelection`
(lines 108–141).  `tname` is the type being generated, `rec` performs the
recursive call `generateFullFieldSelection(checkType, depth + 1)`, and
the accumulator carries the `fieldSelections` array and the cache state.
A direct self-reference takes the minimal selection (and is dropped
entirely when that is empty); any other composite type is recursed into,
falling back to the bare field name when the nested selection is empty;
unions get `{ __typename }`; everything else is emitted bare. -/
def fieldStep (sch : Schema) (tname : String)
    (rec : String → Caches → String × Caches)
    (acc : List String × Caches) (fd : FieldDef) : List String × Caches :=
  let checkType := unwrapTriple fd.type
  match classifyCheckType sch checkType with
  | .comp n =>
    if n = tname then
      let pr := getMinimalFieldSelection sch n acc.2
      if pr.1 = "" then (acc.1, pr.2)
      else (acc.1 ++ [fd.name ++ " " ++ pr.1], pr.2)
    else
      let pr := rec n acc.2
      if pr.1 = "" then (acc.1 ++ [fd.name], pr.2)
      else (acc.1 ++ [fd.name ++ " " ++ pr.1], pr.2)
  | .uni => (acc.1 ++ [fd.name ++ " \x7b __typename \x7d"], acc.2)
  | .other => (acc.1 ++ [fd.name], acc.2)

/-- Joining and bracing of the collected field selections (line 145). -/
def braceJoin (depth : Nat) (entries : List String) : String :=
  "\x7b\n" ++ indentStr (depth + 1) ++
    joinSep ("\n" ++ indentStr (depth + 1)) entries ++
    "\n" ++ indentStr depth ++ "\x7d"

/-- Use the minimal selection for `tname` and memoize it into the full
cache (the `depth > 3` arm of `generateFullFieldSelection`,
lines 99–103). -/
def minimalStore (sch : Schema) (tname : String) (st : Caches) :
    String × Caches :=
  let pr := getMinimalFieldSelection sch tname st
  (pr.1, setFull pr.2 tname pr.1)

/-- Core of `generateFullFieldSelection` (lines 90–151).  The source
recursion terminates because `depth` grows by one per nested call and the
`depth > 3` guard stops it; the embedding carries the equivalent
structural fuel `4 - depth` alongside `depth` (all call sites maintain
`fuel = 4 - depth`), so fuel runs out exactly when `depth > 3`, and the
`fuel = 0` arm returns the same cache-check-then-minimal result that the
`depth > 3` guard produces. -/
def gfsAux (sch : Schema) : Nat → String → Nat → Caches → String × Caches
  | 0, tname, _, st =>
    (match alookup st.full tname with
     | some cached => (cached, st)
     | none => minimalStore sch tname st)
  | fuel' + 1, tname, depth, st =>
    (match alookup st.full tname with
     | some cached => (cached, st)
     | none =>
       if depth > 3 then
         minimalStore sch tname st
       else
         let acc := (getFieldsOf sch tname).foldl
           (fieldStep sch tname (fun n st' => gfsAux sch fuel' n (depth + 1) st'))
           ([], st)
         let sel := if acc.1.isEmpty then "" else braceJoin depth acc.1
         (sel, setFull acc.2 tname sel))

/-- `generateFullFieldSelection(actualType, depth)`. -/
def generateFullFieldSelection (sch : Schema) (tname : String) (depth : Nat)
    (st : Caches) : String × Caches :=
  gfsAux sch (4 - depth) tname depth st

/-- `generateFieldSelection` (lines 153–194): strip wrappers, dispatch on
the kind of the base type; for OBJECT/INTERFACE consult the visited set,
then the full cache, then generate.  The source inserts the type name
into its local visited set around the `generateFullFieldSelection` call
and removes it again, but never passes the set down, so that mutation is
invisible in the result and is not modelled. -/
def generateFieldSelection (sch : Schema) (t : GType)
    (visited : List String) (depth : Nat) (st : Caches) : String × Caches :=
  match unwrapTriple t with
  | .named n =>
    match findType sch n with
    | some td =>
      match td.kind with
      | .scalar => ("", st)
      | .enum => ("", st)
      | .object =>
        if visited.contains n then getMinimalFieldSelection sch n st
        else
          match alookup st.full n with
          | some s => (s, st)
          | none => generateFullFieldSelection sch n depth st
      | .iface =>
        if visited.contains n then getMinimalFieldSelection sch n st
        else
          match alookup st.full n with
          | some s => (s, st)
          | none => generateFullFieldSelection sch n depth st
      | .union => ("\x7b __typename \x7d", st)
      | .inputObject => ("", st)
    | none => ("", st)
  | _ => ("", st)

/-- `true` iff the declared type is wrapped in a non-null layer
(`isNonNullType`). -/
def isNonNullG : GType → Bool
  | .nonNull _ => true
  | _ => false

/-- Shape of the JSON schema objects returned by `getJSONSchemaType`:
primitive leaves, enum leaves, array nodes, the circular-reference
placeholder, input-object nodes with properties and a required-name
list, and the generic `{ type: "object" }` fallback.  The `description`
strings the source copies into these objects decorate no claim and are
omitted. -/
inductive JSchema where
  | prim (ty : String)
  | enumOf (values : List String)
  | arr (item : JSchema)
  | circ (typeName : String)
  | objSchema (props : List (String × JSchema)) (required : List String)
  | anyObj

/-- The scalar-name switch of `getJSONSchemaType` (lines 208–222). -/
def scalarJSONType (n : String) : String :=
  if n = "String" then "string"
  else if n = "ID" then "string"
  else if n = "Int" then "integer"
  else if n = "Float" then "number"
  else if n = "Boolean" then "boolean"
  else "string"

/-- `getJSONSchemaType` (lines 196–263).  The source recursion terminates
because wrapper layers shrink and the visited set blocks re-entering an
input object already being expanded; the embedding spends one unit of
fuel per call, and the wrapper below supplies more fuel than any path
through a schema can consume, so the `fuel = 0` fallback (which returns
the same `{ type: "object" }` object as the source's final fallback) is
never reached on meaningful inputs.  For a nested input-object field,
`required` collects exactly the non-null field names — the declared
default value is NOT consulted at this level. -/
def getJSONSchemaType (sch : Schema) : Nat → GType → List String → JSchema
  | 0, _, _ => .anyObj
  | fuel + 1, t, visited =>
    match t with
    | .nonNull u => getJSONSchemaType sch fuel u visited
    | .list u => .arr (getJSONSchemaType sch fuel u visited)
    | .named n =>
      match findType sch n with
      | some td =>
        match td.kind with
        | .scalar => .prim (scalarJSONType n)
        | .enum => .enumOf td.enumValues
        | .inputObject =>
          if visited.contains n then .circ n
          else
            let visited' := visited ++ [n]
            .objSchema
              (td.inputFields.map
                (fun f => (f.name, getJSONSchemaType sch fuel f.type visited')))
              ((td.inputFields.filter (fun f => isNonNullG f.type)).map
                (fun f => f.name))
        | _ => .anyObj
      | none => .anyObj

/-- Structural size of a type reference (wrapper chain length). -/
def gtypeSize : GType → Nat
  | .named _ => 1
  | .nonNull u => gtypeSize u + 1
  | .list u => gtypeSize u + 1

/-- A generous fuel bound for `getJSONSchemaType`: enough for the wrapper
chain of the starting type plus, per input-object expansion (of which the
visited set allows at most one per named type), all wrapper chains of all
input fields in the schema. -/
def jsonFuel (sch : Schema) (t : GType) : Nat :=
  gtypeSize t +
    (sch.types.length + 1) *
      (sch.types.foldl
        (fun a td => a + 1 + td.inputFields.foldl (fun b f => b + gtypeSize f.type) 0)
        0 + 1)

/-- `getJSONSchemaType(argType)` as called with the default empty visited
set and ample fuel. -/
def getJSONSchemaTypeTop (sch : Schema) (t : GType) : JSchema :=
  getJSONSchemaType sch (jsonFuel sch t) t []

/-- One generated operation descriptor (`MCPTool`), with the
`inputSchema` pieces and the `_graphql` metadata flattened in. -/
structure MCPTool where
  name : String
  description : String
  properties : List (String × JSchema)
  required : List String
  fieldName : String
  operationType : String
  args : List GArg
  returnType : GType
  fieldSelection : String

/-- The argument loop of `generateToolForField` (lines 273–284): for each
argument, in order, add its JSON schema to `properties` and, when it is
non-null AND declares no default value (line 280), its name to
`required`. -/
def argSchemas (sch : Schema) : List GArg → List (String × JSchema) × List String
  | [] => ([], [])
  | a :: rest =>
    let pr := argSchemas sch rest
    ((a.name, getJSONSchemaTypeTop sch a.type) :: pr.1,
     if isNonNullG a.type && !a.hasDefault then a.name :: pr.2 else pr.2)

/-- `generateToolForField` (lines 265–305): argument loop building
`properties` and `required` (an argument is required iff non-null AND no
default is declared — line 280), then the response field selection, then
the descriptor named `<operationType>_<fieldName>` with the doc-string
or the templated fallback (`field.description || ...`: the empty string
is falsy in JavaScript and also falls back). -/
def generateToolForField (sch : Schema) (fieldName : String) (fd : FieldDef)
    (opType : String) (st : Caches) : MCPTool × Caches :=
  let pr := argSchemas sch fd.args
  let selPr := generateFieldSelection sch fd.type [] 0 st
  ({ name := opType ++ "_" ++ fieldName,
     description :=
       match fd.descr with
       | some d => if d = "" then "Execute GraphQL " ++ opType ++ ": " ++ fieldName else d
       | none => "Execute GraphQL " ++ opType ++ ": " ++ fieldName,
     properties := pr.1,
     required := pr.2,
     fieldName := fieldName,
     operationType := opType,
     args := fd.args,
     returnType := fd.type,
     fieldSelection := selPr.1 }, selPr.2)

/-- `clearFieldSelectionCaches` (lines 307–311): both caches are emptied
for a fresh schema load; the ghost write log starts fresh with them so
that it records exactly the writes of the new build. -/
def clearFieldSelectionCaches (_ : Caches) : Caches := emptyCaches

/-- The fields of a root operation type selected by name (empty when the
schema has no such root). -/
def rootFields (sch : Schema) (root : Option String) : List FieldDef :=
  match root with
  | some n =>
    match findType sch n with
    | some td => td.fields
    | none => []
  | none => []

/-- The tool-building loop over one root type's fields. -/
def buildToolsFor (sch : Schema) (opType : String) (flds : List FieldDef)
    (start : List MCPTool × Caches) : List MCPTool × Caches :=
  flds.foldl
    (fun acc fd =>
      let pr := generateToolForField sch fd.name fd opType acc.2
      (acc.1 ++ [pr.1], pr.2))
    start

/-- `generateMCPToolsFromSchema` (lines 321–365): clear both caches,
pre-warm the full cache for every OBJECT/INTERFACE type whose name does
not start with `__`, then build one descriptor per root Query field
(kind `query`) and per root Mutation field (kind `mutation`). -/
def generateMCPToolsFromSchema (sch : Schema) (st : Caches) :
    List MCPTool × Caches :=
  let st0 := clearFieldSelectionCaches st
  let st1 := sch.types.foldl
    (fun acc td =>
      if (td.kind = TypeKind.object || td.kind = TypeKind.iface)
          && !(strStarts td.name "__") then
        (generateFullFieldSelection sch td.name 0 acc).2
      else acc)
    st0
  let qr := buildToolsFor sch "query" (rootFields sch sch.queryType) ([], st1)
  let mr := buildToolsFor sch "mutation" (rootFields sch sch.mutationType) qr
  mr

/-! ### Call-time executor (`cli.ts`) -/

/-- JavaScript values as far as the validator distinguishes them:
`undefined`, `null`, and everything else (booleans, numbers including
`NaN`, strings, objects). -/
inductive JSValue where
  | undefV
  | jnull
  | boolV (b : Bool)
  | numV (n : Int)
  | nanV
  | strV (s : String)
  | objV
deriving DecidableEq

/-- The supplied argument object, with its own properties and the
properties found further up its prototype chain. -/
structure ArgsObj where
  own : List (String × JSValue)
  proto : List (String × JSValue)
deriving DecidableEq

/-- `request.params.arguments` may itself be `undefined` or `null`. -/
inductive ArgsParam where
  | undefA
  | nullA
  | objA (o : ArgsObj)
deriving DecidableEq

/-- `Object.prototype.hasOwnProperty.call(args, k)`. -/
def jsOwnLookup (o : ArgsObj) (k : String) : Option JSValue :=
  alookup o.own k

/-- Property read `args[k]`: own properties shadow inherited ones, and a
property absent from the whole chain reads as `undefined`. -/
def jsGet (o : ArgsObj) (k : String) : JSValue :=
  match alookup o.own k with
  | some v => v
  | none =>
    match alookup o.proto k with
    | some v => v
    | none => .undefV

/-- `v === undefined || v === null`. -/
def isMissingVal : JSValue → Bool
  | .undefV => true
  | .jnull => true
  | _ => false

/-- The per-parameter test of `validateRequiredParameters` (lines
187–189): the whole argument map is absent, or the key is not an own
property, or its value is `undefined`/`null`. -/
def paramMissing (args : ArgsParam) (p : String) : Bool :=
  match args with
  | .undefA => true
  | .nullA => true
  | .objA o => !(jsOwnLookup o p).isSome || isMissingVal (jsGet o p)

/-- `validateRequiredParameters` (lines 182–195): collect, in order,
every required name that fails the test. -/
def validateRequiredParameters (tool : MCPTool) (args : ArgsParam) :
    List String :=
  tool.required.filter (fun p => paramMissing args p)

/-- `getGraphQLVariableType` (lines 49–60): the literal GraphQL type
string of a declared argument type. -/
def getGraphQLVariableType : GType → String
  | .nonNull t => getGraphQLVariableType t ++ "!"
  | .list t => "[" ++ getGraphQLVariableType t ++ "]"
  | .named n => n

/-- `buildGraphQLOperation` (lines 197–218).  The `variables` argument of
the source is never read — declarations and bindings both come from the
descriptor's argument list. -/
def buildGraphQLOperation (tool : MCPTool) : String :=
  let decls := joinSep ", "
    (tool.args.map (fun a => "$" ++ a.name ++ ": " ++ getGraphQLVariableType a.type))
  let usage := joinSep ", "
    (tool.args.map (fun a => a.name ++ ": $" ++ a.name))
  ("\n      " ++ tool.operationType ++ " " ++ tool.fieldName ++ "Operation" ++
    (if decls = "" then "" else "(" ++ decls ++ ")") ++ " \x7b\n        " ++
    tool.fieldName ++ (if usage = "" then "" else "(" ++ usage ++ ")") ++
    " " ++ tool.fieldSelection ++ "\n      \x7d\n    ").trim

/-- The structured result the `CallToolRequestSchema` handler returns:
a text payload and the `isError` flag. -/
structure CallResult where
  text : String
  isError : Bool
deriving DecidableEq

/-- The catch-block conversion: any thrown `Error` becomes a structured
failure result, never an exception escaping to the transport. -/
def errResult (name msg : String) : CallResult :=
  { text := "Error executing " ++ name ++ ": " ++ msg, isError := true }

/-- The `CallToolRequestSchema` handler (lines 109–179): look the tool
up, validate required parameters (throwing — and thus returning a
structured failure — when any are missing, with the message listing all
of them), then delegate to the upstream GraphQL client, whose success
payload (already stringified) or error message determines the result.
Every descriptor built by this generator carries `_graphql` metadata, so
the `!tool._graphql` guard coincides with the lookup failing. -/
def callTool (tools : List MCPTool) (name : String) (args : ArgsParam)
    (upstream : String → ArgsParam → Except String String) : CallResult :=
  match tools.find? (fun t => t.name = name) with
  | none => errResult name ("Unknown tool: " ++ name)
  | some tool =>
    let missing := validateRequiredParameters tool args
    if missing.isEmpty then
      match upstream (buildGraphQLOperation tool) args with
      | .ok payload => { text := payload, isError := false }
      | .error msg => errResult name msg
    else
      errResult name ("Missing required parameters: " ++ joinSep ", " missing)

/-! ### Concrete schemas used by witnesses and counterexamples -/

/-- A schema with the mutual cycle of the spec's own example:
`Query.user: User`, `User.posts: [Post]`, `Post.author: User`. -/
def cycleSchema : Schema :=
  { types :=
      [ { name := "ID", kind := .scalar },
        { name := "Query", kind := .object,
          fields := [⟨"user", .named "User", [⟨"id", .nonNull (.named "ID"), false⟩], none⟩] },
        { name := "User", kind := .object,
          fields := [⟨"id", .named "ID", [], none⟩,
                     ⟨"posts", .list (.named "Post"), [], none⟩] },
        { name := "Post", kind := .object,
          fields := [⟨"id", .named "ID", [], none⟩,
                     ⟨"author", .named "User", [], none⟩] } ],
    queryType := some "Query" }

/-- A schema in which the object type `D` has no fields at all, while
`T.obj` has type `D` (the spec's "fieldless object type" edge case). -/
def fieldlessSchema : Schema :=
  { types :=
      [ { name := "T", kind := .object,
          fields := [⟨"obj", .named "D", [], none⟩] },
        { name := "D", kind := .object, fields := [] } ],
    queryType := none }

/-- A schema whose input object declares a NON-NULL field `x` WITH a
declared default value, next to a nullable `y` and a non-null
no-default `z`. -/
def inputDefaultSchema : Schema :=
  { types :=
      [ { name := "String", kind := .scalar },
        { name := "Int", kind := .scalar },
        { name := "User", kind := .object,
          fields := [⟨"id", .named "String", [], none⟩] },
        { name := "CreateUserInput", kind := .inputObject,
          inputFields :=
            [⟨"x", .nonNull (.named "String"), true⟩,
             ⟨"y", .named "Int", false⟩,
             ⟨"z", .nonNull (.named "Int"), false⟩] },
        { name := "Mutation", kind := .object,
          fields :=
            [⟨"createUser", .named "User",
              [⟨"input", .nonNull (.named "CreateUserInput"), false⟩], none⟩] } ],
    mutationType := some "Mutation" }

/-- A two-type mutual cycle in which both types expose `id`, used to
discharge the well-formedness hypotheses of the no-bare-composite
theorem. -/
def pairedSchema : Schema :=
  { types :=
      [ { name := "ID", kind := .scalar },
        { name := "A", kind := .object,
          fields := [⟨"id", .named "ID", [], none⟩,
                     ⟨"b", .named "B", [], none⟩] },
        { name := "B", kind := .object,
          fields := [⟨"id", .named "ID", [], none⟩,
                     ⟨"a", .nonNull (.list (.named "A")), [], none⟩] } ],
    queryType := none }

/-- The sub-selection attached to the `author` field inside the final
cached `Post` selection of `cycleSchema`: the depth-truncated full
selection generated for `User` at recursion depth 3. -/
def c1AuthorSub : String :=
  "\x7b\n        id\n        posts \x7b id \x7d\n      \x7d"

/-- The final cached full selection of `User` in `cycleSchema`. -/
def c1UserSel : String :=
  "\x7b\n    id\n    posts \x7b\n      id\n      author \x7b\n        id\n        posts \x7b id \x7d\n      \x7d\n    \x7d\n  \x7d"

/-- Does the write log contain a later write that changes the value an
earlier write gave the same key? -/
def logOverwrites : List (String × String) → Bool
  | [] => false
  | (k, v) :: rest =>
    rest.any (fun p => p.1 == k && p.2 != v) || logOverwrites rest

/-- The sequence of values written to the full cache for one key. -/
def writesFor (log : List (String × String)) (k : String) : List String :=
  (log.filter (fun p => p.1 == k)).map (fun p => p.2)

/-- The required-name list of an input-object JSON schema node. -/
def nestedReq : JSchema → List String
  | .objSchema _ r => r
  | _ => []

/-- A stand-alone descriptor for executor witnesses: four required
parameters and one optional. -/
def demoTool : MCPTool :=
  { name := "query_user",
    description := "Execute GraphQL query: user",
    properties := [],
    required := ["a", "b", "c", "d"],
    fieldName := "user",
    operationType := "query",
    args := [⟨"a", .nonNull (.named "ID"), false⟩],
    returnType := .named "User",
    fieldSelection := "\x7b id \x7d" }

/-- A composite type is "good" when it has at least one field and one of
the minimal-selection fields (`documentId` or `id`): exactly what makes
its synthesized selections nonempty. -/
def goodType (td : TypeDef) : Bool :=
  !td.fields.isEmpty &&
    (td.fields.any (fun f => f.name = "documentId") ||
     td.fields.any (fun f => f.name = "id"))

/-- Every OBJECT/INTERFACE type of the schema is good. -/
def goodSchema (sch : Schema) : Bool :=
  sch.types.all (fun td =>
    match td.kind with
    | .object => goodType td
    | .iface => goodType td
    | _ => true)

/-- Does the name resolve to an OBJECT or INTERFACE type? -/
def isCompositeName (sch : Schema) (n : String) : Bool :=
  match findType sch n with
  | some td =>
    (match td.kind with
     | .object => true
     | .iface => true
     | _ => false)
  | none => false

/-- A selection string that opens with a brace (in particular, it is not
empty: it is a real sub-selection). -/
def selGood (s : String) : Bool :=
  strStarts s "\x7b"

/-- Every value either cache holds opens with a brace. -/
def SelInv (st : Caches) : Prop :=
  (∀ p ∈ st.full, selGood p.2 = true) ∧ (∀ p ∈ st.minimal, selGood p.2 = true)

/-- The no-bare-composite property of one emitted field entry: whenever
the field's stripped type is a composite OBJECT/INTERFACE reference, the
entry is the field name followed by a brace-opening sub-selection. -/
def entryPred (sch : Schema) (fd : FieldDef) (e : String) : Prop :=
  ∀ n, classifyCheckType sch (unwrapTriple fd.type) = FieldKindView.comp n →
    ∃ sel, selGood sel = true ∧ e = fd.name ++ " " ++ sel

/-- A string with as many opening as closing braces. -/
def Balanced (s : String) : Prop :=
  s.data.count '\x7b' = s.data.count '\x7d'

instance : DecidablePred Balanced :=
  fun _ => inferInstanceAs (Decidable (_ = _))

/-- Every value held by either cache is balanced. -/
def BalancedState (st : Caches) : Prop :=
  (∀ p ∈ st.full, Balanced p.2) ∧ (∀ p ∈ st.minimal, Balanced p.2)

instance (st : Caches) : Decidable (BalancedState st) :=
  inferInstanceAs (Decidable (_ ∧ _))

/-- GraphQL names cannot contain brace characters; this records that no
field name of the schema does. -/
def NoBraceNames (sch : Schema) : Prop :=
  ∀ td ∈ sch.types, ∀ fd ∈ td.fields,
    fd.name.data.count '\x7b' = 0 ∧ fd.name.data.count '\x7d' = 0

instance (sch : Schema) : Decidable (NoBraceNames sch) :=
  inferInstanceAs (Decidable (∀ td ∈ sch.types, ∀ fd ∈ td.fields, _ ∧ _))

instance (st : Caches) : Decidable (SelInv st) :=
  inferInstanceAs (Decidable (_ ∧ _))

/-! ### Basic lemmas about the association-list caches -/

theorem alookup_mem {α : Type} {l : List (String × α)} {key : String} {v : α}
    (h : alookup l key = some v) : (key, v) ∈ l := by
  induction l with
  | nil => simp [alookup] at h
  | cons p rest ih =>
    obtain ⟨k, w⟩ := p
    by_cases hk : k = key
    · subst hk
      simp [alookup] at h
      simp [h]
    · simp [alookup, hk] at h
      exact List.mem_cons_of_mem _ (ih h)

theorem alookup_cons_ne {α : Type} {k key : String} (v : α) (l : List (String × α))
    (h : k ≠ key) : alookup ((k, v) :: l) key = alookup l key := by
  simp [alookup, h]

theorem getMinimal_full (sch : Schema) (n : String) (st : Caches) :
    (getMinimalFieldSelection sch n st).2.full = st.full := by
  unfold getMinimalFieldSelection
  cases alookup st.minimal n <;> rfl

theorem getMinimal_fullWrites (sch : Schema) (n : String) (st : Caches) :
    (getMinimalFieldSelection sch n st).2.fullWrites = st.fullWrites := by
  unfold getMinimalFieldSelection
  cases alookup st.minimal n <;> rfl

theorem getMinimal_minimal_preserved (sch : Schema) (n : String) (st : Caches)
    {T : String} {m : String} (h : alookup st.minimal T = some m) :
    alookup (getMinimalFieldSelection sch n st).2.minimal T = some m := by
  unfold getMinimalFieldSelection
  cases hn : alookup st.minimal n with
  | some x => simpa using h
  | none =>
    have hne : n ≠ T := by
      intro he
      rw [he] at hn
      rw [hn] at h
      exact Option.noConfusion h
    simpa [setMinimal, alookup_cons_ne _ _ hne] using h

/-! ### Claim theorems: executor (C6, C10) and determinism (C7) -/

/-- Claim C7: registry building is deterministic — the build begins by
clearing both selection caches, so for any fixed schema two executions
from arbitrary prior cache states produce identical tool lists (hence
identical `fieldSelection` strings on every descriptor) and identical
cached selection strings for every type name. -/
theorem c7_theorem (sch : Schema) (s1 s2 : Caches) (T : String) :
    (generateMCPToolsFromSchema sch s1).1 = (generateMCPToolsFromSchema sch s2).1 ∧
    alookup (generateMCPToolsFromSchema sch s1).2.full T =
      alookup (generateMCPToolsFromSchema sch s2).2.full T ∧
    (generateMCPToolsFromSchema sch s1).1.map (fun t => t.fieldSelection) =
      (generateMCPToolsFromSchema sch s2).1.map (fun t => t.fieldSelection) :=
  ⟨rfl, rfl, rfl⟩

/-- Claim C6: when any required parameter is absent, not an own property,
or bound to `undefined`/`null`, the call returns a structured error
result whose message lists every missing name; membership in the missing
list is exactly the required-and-failing test; a name that is not an own
property is missing no matter what the prototype chain holds; and the
result does not depend on the upstream client (it is produced locally,
before any request). -/
theorem c6_theorem (tools : List MCPTool) (name : String) (args : ArgsParam)
    (tool : MCPTool) (upstream : String → ArgsParam → Except String String)
    (hf : tools.find? (fun t => t.name = name) = some tool)
    (hm : validateRequiredParameters tool args ≠ []) :
    callTool tools name args upstream =
      errResult name ("Missing required parameters: " ++
        joinSep ", " (validateRequiredParameters tool args)) ∧
    (∀ p, p ∈ validateRequiredParameters tool args ↔
      p ∈ tool.required ∧ paramMissing args p = true) ∧
    (∀ o p, args = ArgsParam.objA o → p ∈ tool.required →
      alookup o.own p = none → p ∈ validateRequiredParameters tool args) ∧
    (∀ u2, callTool tools name args upstream = callTool tools name args u2) := by
  have hne : (validateRequiredParameters tool args).isEmpty = false := by
    cases hv : validateRequiredParameters tool args with
    | nil => exact absurd hv hm
    | cons a l => rfl
  refine ⟨?_, ?_, ?_, ?_⟩
  · simp [callTool, hf, hne]
  · intro p
    simp [validateRequiredParameters, List.mem_filter]
  · intro o p hargs hp hown
    subst hargs
    simp [validateRequiredParameters, List.mem_filter, hp, paramMissing,
      jsOwnLookup, hown]
  · intro u2
    simp [callTool, hf, hne]

/-- Claim C10: validation rejects only absent, `null` or `undefined`
values — whenever every required name is an own property bound to any
other value (including `""`, `false`, `0` and `NaN`), the missing list is
empty and the call proceeds to the upstream request, whose outcome alone
determines the result. -/
theorem c10_theorem (tools : List MCPTool) (name : String) (o : ArgsObj)
    (tool : MCPTool) (upstream : String → ArgsParam → Except String String)
    (hf : tools.find? (fun t => t.name = name) = some tool)
    (hall : ∀ p ∈ tool.required,
      ∃ v, alookup o.own p = some v ∧ isMissingVal v = false) :
    validateRequiredParameters tool (ArgsParam.objA o) = [] ∧
    callTool tools name (ArgsParam.objA o) upstream =
      (match upstream (buildGraphQLOperation tool) (ArgsParam.objA o) with
       | Except.ok r => { text := r, isError := false }
       | Except.error m => errResult name m) := by
  have hval : validateRequiredParameters tool (ArgsParam.objA o) = [] := by
    unfold validateRequiredParameters
    rw [List.filter_eq_nil_iff]
    intro p hp
    obtain ⟨v, hov, hmv⟩ := hall p hp
    simp [paramMissing, jsOwnLookup, hov, jsGet, hmv]
  refine ⟨hval, ?_⟩
  simp [callTool, hf, hval]

/-! ### Claim C9: double-list wrappers hide the base type -/

/-- Claim C9: the wrapper stripping removes at most non-null, list,
non-null — so a type carrying two nested list layers (such as `[[User]]`
or `[[User!]!]`) still ends in a list wrapper after stripping, the
top-level selection generated for it is the empty string, and a field of
such a type is emitted as a bare name with no sub-selection. -/
theorem c9_theorem (sch : Schema) (t u : GType) (visited : List String)
    (depth : Nat) (st : Caches) (tname : String)
    (rec : String → Caches → String × Caches) (acc : List String × Caches)
    (fd : FieldDef) (h : unwrapTriple t = GType.list u) :
    generateFieldSelection sch t visited depth st = ("", st) ∧
    (fd.type = t →
      fieldStep sch tname rec acc fd = (acc.1 ++ [fd.name], acc.2)) := by
  constructor
  · unfold generateFieldSelection
    rw [h]
  · intro h2
    unfold fieldStep
    rw [h2, h]
    rfl

/-! ### Claim C1: what the author field actually carries in a mutual cycle -/

/-- Claim C1 counterexample: for the schema `User.posts: [Post]`,
`Post.author: User`, the final cached full selection for `Post` attaches
to `author` a sub-selection that is neither `{ id }` nor
`{ documentId }` — the minimal form is not substituted for the
mutual-cycle re-entry (only the depth ceiling truncates it). -/
theorem c1_counterexample :
    (alookup (generateMCPToolsFromSchema cycleSchema emptyCaches).2.full "Post").map
      (fun s => strHasSub s "author \x7b id \x7d") = some false ∧
    (alookup (generateMCPToolsFromSchema cycleSchema emptyCaches).2.full "Post").map
      (fun s => strHasSub s "author \x7b documentId \x7d") = some false ∧
    (alookup (generateMCPToolsFromSchema cycleSchema emptyCaches).2.full "Post").map
      (fun s => strHasSub s "author \x7b") = some true := by
  decide

/-- Claim C1 (amended): `generateFullFieldSelection` breaks only direct
self-reference with the minimal selection; a mutual cycle is re-entered
and unfolded until the depth ceiling, so the `author` field inside the
final cached `Post` selection carries the depth-truncated full `User`
selection — a multi-line selection distinct from both minimal forms,
though still strictly shorter than `User`'s own cached full selection. -/
theorem c1_amended_theorem :
    alookup (generateMCPToolsFromSchema cycleSchema emptyCaches).2.full "Post" =
      some ("\x7b\n      id\n      author " ++ c1AuthorSub ++ "\n    \x7d") ∧
    alookup (generateMCPToolsFromSchema cycleSchema emptyCaches).2.full "User" =
      some c1UserSel ∧
    strStarts c1AuthorSub "\x7b\n" = true ∧
    c1AuthorSub ≠ "\x7b id \x7d" ∧
    c1AuthorSub ≠ "\x7b documentId \x7d" ∧
    c1AuthorSub.length < c1UserSel.length := by
  decide

/-! ### Claim C2 counterexample: a bare composite field -/

/-- Claim C2 counterexample: in `fieldlessSchema`, the field `T.obj` has
the OBJECT type `D`, yet the cached selection for `T` contains `obj` as a
bare field name with no sub-selection, because `D`'s nested selection
synthesized to the empty string. -/
theorem c2_counterexample :
    alookup (generateMCPToolsFromSchema fieldlessSchema emptyCaches).2.full "T" =
      some "\x7b\n  obj\n\x7d" ∧
    classifyCheckType fieldlessSchema (unwrapTriple (GType.named "D")) =
      FieldKindView.comp "D" ∧
    (findType fieldlessSchema "T").map (fun td => td.fields.map (fun f => (f.name, f.type))) =
      some [("obj", GType.named "D")] ∧
    strHasSub "\x7b\n  obj\n\x7d" "obj" = true ∧
    strHasSub "\x7b\n  obj\n\x7d" "obj \x7b" = false := by
  decide

/-! ### Claim C3 counterexample: the full cache is overwritten mid-build -/

/-- Claim C3 counterexample: during one build over the mutual cycle the
full cache entry for `Post` is written twice with two different values —
first the minimal `{ id }` at the depth ceiling, later the full
selection when the outer in-progress generation of `Post` completes — so
an existing entry is overwritten before the caches are cleared. -/
theorem c3_counterexample :
    logOverwrites (generateMCPToolsFromSchema cycleSchema emptyCaches).2.fullWrites = true ∧
    (writesFor (generateMCPToolsFromSchema cycleSchema emptyCaches).2.fullWrites "Post").length = 2 ∧
    (writesFor (generateMCPToolsFromSchema cycleSchema emptyCaches).2.fullWrites "Post").Nodup ∧
    (writesFor (generateMCPToolsFromSchema cycleSchema emptyCaches).2.fullWrites "Post").head? =
      some "\x7b id \x7d" := by
  decide

/-! ### Claim C4 counterexample and theorem -/

/-- Claim C4 counterexample: in `inputDefaultSchema` the input field
`CreateUserInput.x` is non-null AND declares a default value, yet the
generated nested parameter schema marks `x` required — the nested level
ignores default values. -/
theorem c4_counterexample :
    (generateMCPToolsFromSchema inputDefaultSchema emptyCaches).1.map
      (fun t => (t.name, t.required, t.properties.map (fun p => (p.1, nestedReq p.2)))) =
      [("mutation_createUser", ["input"], [("input", ["x", "z"])])] ∧
    (findType inputDefaultSchema "CreateUserInput").map
      (fun td => td.inputFields.map (fun f => (f.name, isNonNullG f.type, f.hasDefault))) =
      some [("x", true, true), ("y", false, false), ("z", true, false)] := by
  decide

/-! ### Claim C4: required-ness of arguments and nested input fields -/

theorem argSchemas_required (sch : Schema) (args : List GArg) :
    (argSchemas sch args).2 =
      (args.filter (fun a => isNonNullG a.type && !a.hasDefault)).map
        (fun a => a.name) := by
  induction args with
  | nil => rfl
  | cons a rest ih =>
    cases hc : isNonNullG a.type && !a.hasDefault with
    | false => simp [argSchemas, List.filter_cons, hc, ih]
    | true => simp [argSchemas, List.filter_cons, hc, ih]

/-- Claim C4 (amended): at the top level an argument is required iff its
declared type is non-null AND no default value is declared; but at the
nested level the generator marks an input-object field required iff its
declared type is non-null, with the declared default value NOT consulted
— so a non-null input field with a default IS marked required. -/
theorem c4_theorem (sch : Schema) (fname : String) (fd : FieldDef)
    (op : String) (st : Caches) (n : String) (td : TypeDef)
    (visited : List String) (fuel : Nat)
    (hn : findType sch n = some td) (hk : td.kind = TypeKind.inputObject)
    (hv : visited.contains n = false) :
    (generateToolForField sch fname fd op st).1.required =
      (fd.args.filter (fun a => isNonNullG a.type && !a.hasDefault)).map
        (fun a => a.name) ∧
    getJSONSchemaType sch (fuel + 1) (GType.named n) visited =
      JSchema.objSchema
        (td.inputFields.map
          (fun f => (f.name, getJSONSchemaType sch fuel f.type (visited ++ [n]))))
        ((td.inputFields.filter (fun f => isNonNullG f.type)).map
          (fun f => f.name)) := by
  constructor
  · show (argSchemas sch fd.args).2 = _
    exact argSchemas_required sch fd.args
  · have hv' : n ∉ visited := by simpa using hv
    simp [getJSONSchemaType, hn, hk, hv']

/-! ### Claim C3: cache-entry preservation -/

theorem minimalStore_preserves_full (sch : Schema) (tname : String)
    (st : Caches) {T v : String} (hT : alookup st.full T = some v)
    (hnone : alookup st.full tname = none) :
    alookup (minimalStore sch tname st).2.full T = some v := by
  have hne : tname ≠ T := by
    intro he
    rw [he, hT] at hnone
    exact Option.noConfusion hnone
  unfold minimalStore
  rcases hp : getMinimalFieldSelection sch tname st with ⟨m, st2⟩
  have hfull : st2.full = st.full := by
    have h2 := getMinimal_full sch tname st
    rw [hp] at h2
    exact h2
  simpa [setFull, alookup_cons_ne _ _ hne, hfull] using hT

theorem minimalStore_preserves_minimal (sch : Schema) (tname : String)
    (st : Caches) {T m : String} (hT : alookup st.minimal T = some m) :
    alookup (minimalStore sch tname st).2.minimal T = some m := by
  unfold minimalStore
  rcases hp : getMinimalFieldSelection sch tname st with ⟨x, st2⟩
  have h2 := getMinimal_minimal_preserved sch tname st hT
  rw [hp] at h2
  simpa [setFull] using h2

theorem fieldStep_preserves_full (sch : Schema) (tname : String)
    (rec : String → Caches → String × Caches)
    (hrec : ∀ n st', ∀ T v, alookup st'.full T = some v →
      alookup (rec n st').2.full T = some v)
    (acc : List String × Caches) (fd : FieldDef) {T v : String}
    (hT : alookup acc.2.full T = some v) :
    alookup (fieldStep sch tname rec acc fd).2.full T = some v := by
  unfold fieldStep
  cases hc : classifyCheckType sch (unwrapTriple fd.type) with
  | comp n =>
    by_cases he : n = tname
    · subst he
      rcases hp : getMinimalFieldSelection sch n acc.2 with ⟨x, st2⟩
      have hfull : st2.full = acc.2.full := by
        have h2 := getMinimal_full sch n acc.2
        rw [hp] at h2
        exact h2
      by_cases hx : x = "" <;> simp [hc, hp, hx, hfull, hT]
    · rcases hp : rec n acc.2 with ⟨s, st2⟩
      have h2 : alookup st2.full T = some v := by
        have h3 := hrec n acc.2 T v hT
        rw [hp] at h3
        exact h3
      by_cases hs : s = "" <;> simp [hc, he, hp, hs, h2]
  | uni => simp [hc, hT]
  | other => simp [hc, hT]

theorem fieldStep_preserves_minimal (sch : Schema) (tname : String)
    (rec : String → Caches → String × Caches)
    (hrecm : ∀ n st', ∀ T m, alookup st'.minimal T = some m →
      alookup (rec n st').2.minimal T = some m)
    (acc : List String × Caches) (fd : FieldDef) {T m : String}
    (hTm : alookup acc.2.minimal T = some m) :
    alookup (fieldStep sch tname rec acc fd).2.minimal T = some m := by
  unfold fieldStep
  cases hc : classifyCheckType sch (unwrapTriple fd.type) with
  | comp n =>
    by_cases he : n = tname
    · subst he
      rcases hp : getMinimalFieldSelection sch n acc.2 with ⟨x, st2⟩
      have hminp := getMinimal_minimal_preserved sch n acc.2 hTm
      rw [hp] at hminp
      by_cases hx : x = "" <;> simp [hc, hp, hx, hminp]
    · rcases hp : rec n acc.2 with ⟨s, st2⟩
      have h2m : alookup st2.minimal T = some m := by
        have h3 := hrecm n acc.2 T m hTm
        rw [hp] at h3
        exact h3
      by_cases hs : s = "" <;> simp [hc, he, hp, hs, h2m]
  | uni => simp [hc, hTm]
  | other => simp [hc, hTm]

theorem fold_preserves_full (sch : Schema) (tname : String)
    (rec : String → Caches → String × Caches)
    (hrec : ∀ n st', ∀ T v, alookup st'.full T = some v →
      alookup (rec n st').2.full T = some v) :
    ∀ (flds : List FieldDef) (acc : List String × Caches) {T v : String},
      alookup acc.2.full T = some v →
      alookup ((flds.foldl (fieldStep sch tname rec) acc).2).full T = some v := by
  intro flds
  induction flds with
  | nil => intro acc T v h; exact h
  | cons fd rest ih =>
    intro acc T v h
    exact ih _ (fieldStep_preserves_full sch tname rec hrec acc fd h)

theorem fold_preserves_minimal (sch : Schema) (tname : String)
    (rec : String → Caches → String × Caches)
    (hrecm : ∀ n st', ∀ T m, alookup st'.minimal T = some m →
      alookup (rec n st').2.minimal T = some m) :
    ∀ (flds : List FieldDef) (acc : List String × Caches) {T m : String},
      alookup acc.2.minimal T = some m →
      alookup ((flds.foldl (fieldStep sch tname rec) acc).2).minimal T = some m := by
  intro flds
  induction flds with
  | nil => intro acc T m h; exact h
  | cons fd rest ih =>
    intro acc T m h
    exact ih _ (fieldStep_preserves_minimal sch tname rec hrecm acc fd h)

theorem gfs_preserves_full (sch : Schema) :
    ∀ (fuel : Nat) (tname : String) (depth : Nat) (st : Caches) {T v : String},
      alookup st.full T = some v →
      alookup (gfsAux sch fuel tname depth st).2.full T = some v := by
  intro fuel
  induction fuel with
  | zero =>
    intro tname depth st T v h
    unfold gfsAux
    cases hc : alookup st.full tname with
    | some s => simpa [hc] using h
    | none =>
      by_cases hd : depth > 3 <;>
        simp [hc, hd, minimalStore_preserves_full sch tname st h hc]
  | succ fuel' ih =>
    intro tname depth st T v h
    unfold gfsAux
    cases hc : alookup st.full tname with
    | some s => simpa [hc] using h
    | none =>
      by_cases hd : depth > 3
      · simp [hc, hd, minimalStore_preserves_full sch tname st h hc]
      · have hne : tname ≠ T := by
          intro he
          rw [he, h] at hc
          exact Option.noConfusion hc
        have hf := fold_preserves_full sch tname
          (fun n st' => gfsAux sch fuel' n (depth + 1) st')
          (fun n st' T' v' hv' => ih n (depth + 1) st' hv')
          (getFieldsOf sch tname) ([], st) h
        simp [hc, hd, setFull, alookup_cons_ne _ _ hne, hf]

theorem gfs_preserves_minimal (sch : Schema) :
    ∀ (fuel : Nat) (tname : String) (depth : Nat) (st : Caches) {T m : String},
      alookup st.minimal T = some m →
      alookup (gfsAux sch fuel tname depth st).2.minimal T = some m := by
  intro fuel
  induction fuel with
  | zero =>
    intro tname depth st T m h
    unfold gfsAux
    cases hc : alookup st.full tname with
    | some s => simpa [hc] using h
    | none =>
      by_cases hd : depth > 3 <;>
        simp [hc, hd, minimalStore_preserves_minimal sch tname st h]
  | succ fuel' ih =>
    intro tname depth st T m h
    unfold gfsAux
    cases hc : alookup st.full tname with
    | some s => simpa [hc] using h
    | none =>
      by_cases hd : depth > 3
      · simp [hc, hd, minimalStore_preserves_minimal sch tname st h]
      · have hf := fold_preserves_minimal sch tname
          (fun n st' => gfsAux sch fuel' n (depth + 1) st')
          (fun n st' T' m' hm' => ih n (depth + 1) st' hm')
          (getFieldsOf sch tname) ([], st) h
        simp [hc, hd, setFull, hf]

theorem genFieldSel_preserves_full (sch : Schema) (t : GType)
    (visited : List String) (depth : Nat) (st : Caches) {T v : String}
    (hT : alookup st.full T = some v) :
    alookup (generateFieldSelection sch t visited depth st).2.full T = some v := by
  unfold generateFieldSelection generateFullFieldSelection
  repeat' split
  all_goals
    first
    | exact hT
    | (rw [getMinimal_full]; exact hT)
    | exact gfs_preserves_full sch _ _ _ _ hT

theorem genFieldSel_preserves_minimal (sch : Schema) (t : GType)
    (visited : List String) (depth : Nat) (st : Caches) {T m : String}
    (hTm : alookup st.minimal T = some m) :
    alookup (generateFieldSelection sch t visited depth st).2.minimal T = some m := by
  unfold generateFieldSelection generateFullFieldSelection
  repeat' split
  all_goals
    first
    | exact hTm
    | exact getMinimal_minimal_preserved sch _ _ hTm
    | exact gfs_preserves_minimal sch _ _ _ _ hTm

/-- Claim C3 (amended): an entry of the full cache can be rewritten while
the generation of that very type is still in progress (see the
counterexample), but every synthesis call issued from a state in which
the entry is already present preserves it — for both caches, and for
both the internal generator and the public selection function — until
the caches are explicitly cleared, which resets them to empty. -/
theorem c3_amended_theorem (sch : Schema) (fuel depth : Nat) (tname : String)
    (t : GType) (visited : List String) (st : Caches) (T v m : String)
    (hfull : alookup st.full T = some v)
    (hmin : alookup st.minimal T = some m) :
    alookup (gfsAux sch fuel tname depth st).2.full T = some v ∧
    alookup (gfsAux sch fuel tname depth st).2.minimal T = some m ∧
    alookup (generateFieldSelection sch t visited depth st).2.full T = some v ∧
    alookup (generateFieldSelection sch t visited depth st).2.minimal T = some m ∧
    clearFieldSelectionCaches st = emptyCaches :=
  ⟨gfs_preserves_full sch fuel tname depth st hfull,
   gfs_preserves_minimal sch fuel tname depth st hmin,
   genFieldSel_preserves_full sch t visited depth st hfull,
   genFieldSel_preserves_minimal sch t visited depth st hmin,
   rfl⟩

/-- Witness for the amended C3 theorem at a concrete cached state. -/
theorem c3_amended_witness :
    alookup (setMinimal (setFull emptyCaches "X" "\x7b id \x7d") "X" "\x7b id \x7d").full "X" =
      some "\x7b id \x7d" ∧
    alookup (setMinimal (setFull emptyCaches "X" "\x7b id \x7d") "X" "\x7b id \x7d").minimal "X" =
      some "\x7b id \x7d" ∧
    alookup (gfsAux cycleSchema 4 "User" 0
        (setMinimal (setFull emptyCaches "X" "\x7b id \x7d") "X" "\x7b id \x7d")).2.full "X" =
      some "\x7b id \x7d" := by
  refine ⟨by decide, by decide, ?_⟩
  exact (c3_amended_theorem cycleSchema 4 0 "User" (GType.named "User") []
    (setMinimal (setFull emptyCaches "X" "\x7b id \x7d") "X" "\x7b id \x7d")
    "X" "\x7b id \x7d" "\x7b id \x7d" (by decide) (by decide)).1

/-! ### Claim C5: depth ceiling and balanced braces -/

theorem balanced_append {a b : String} (ha : Balanced a) (hb : Balanced b) :
    Balanced (a ++ b) := by
  unfold Balanced at *
  rw [String.data_append, List.count_append, List.count_append]
  omega

theorem indentStr_count (c : Char) (n : Nat) (hc : c ≠ ' ') :
    (indentStr n).data.count c = 0 := by
  induction n with
  | zero => rfl
  | succ k ih =>
    show (("  " : String) ++ indentStr k).data.count c = 0
    rw [String.data_append, List.count_append, ih]
    have hd : ("  " : String).data = [' ', ' '] := rfl
    rw [hd]
    simp [List.count_cons, Ne.symm hc]

theorem indentStr_balanced (n : Nat) : Balanced (indentStr n) := by
  unfold Balanced
  rw [indentStr_count _ n (by decide), indentStr_count _ n (by decide)]

theorem joinSep_balanced {sep : String} (hsep : Balanced sep) :
    ∀ {entries : List String}, (∀ e ∈ entries, Balanced e) →
      Balanced (joinSep sep entries) := by
  intro entries
  induction entries with
  | nil =>
    intro _
    show Balanced ""
    decide
  | cons x xs ih =>
    intro h
    cases xs with
    | nil => exact h x (by simp)
    | cons y ys =>
      show Balanced (x ++ sep ++ joinSep sep (y :: ys))
      exact balanced_append (balanced_append (h x (by simp)) hsep)
        (ih (fun e he => h e (by simp [he])))

theorem braceJoin_balanced {depth : Nat} {entries : List String}
    (h : ∀ e ∈ entries, Balanced e) : Balanced (braceJoin depth entries) := by
  unfold braceJoin
  have hj : Balanced (joinSep ("\n" ++ indentStr (depth + 1)) entries) :=
    joinSep_balanced
      (balanced_append (by decide) (indentStr_balanced (depth + 1))) h
  have h1 : Balanced ("\n" ++ indentStr depth) :=
    balanced_append (by decide) (indentStr_balanced depth)
  unfold Balanced at *
  simp only [String.data_append, List.count_append] at *
  have c1 : List.count '\x7b' ("\x7b\n" : String).data = 1 := by decide
  have c2 : List.count '\x7d' ("\x7b\n" : String).data = 0 := by decide
  have c3 : List.count '\x7b' ("\x7d" : String).data = 0 := by decide
  have c4 : List.count '\x7d' ("\x7d" : String).data = 1 := by decide
  have n1 : List.count '\x7b' ("\n" : String).data = 0 := by decide
  have n2 : List.count '\x7d' ("\n" : String).data = 0 := by decide
  have i1 := indentStr_count '\x7b' (depth + 1) (by decide)
  have i2 := indentStr_count '\x7d' (depth + 1) (by decide)
  have i3 := indentStr_count '\x7b' depth (by decide)
  have i4 := indentStr_count '\x7d' depth (by decide)
  simp only [List.count] at *
  omega

theorem getMinimal_balanced (sch : Schema) (n : String) (st : Caches)
    (h : BalancedState st) :
    Balanced (getMinimalFieldSelection sch n st).1 ∧
    BalancedState (getMinimalFieldSelection sch n st).2 := by
  unfold getMinimalFieldSelection
  cases hc : alookup st.minimal n with
  | some m =>
    exact ⟨h.2 _ (alookup_mem hc), h⟩
  | none =>
    constructor
    · by_cases h1 : (getFieldsOf sch n).any (fun f => f.name = "documentId") <;>
        by_cases h2 : (getFieldsOf sch n).any (fun f => f.name = "id") <;>
        simp [h1, h2] <;> decide
    · refine ⟨h.1, ?_⟩
      intro p hp
      rcases List.mem_cons.mp hp with he | hmem
      · subst he
        by_cases h1 : (getFieldsOf sch n).any (fun f => f.name = "documentId") <;>
          by_cases h2 : (getFieldsOf sch n).any (fun f => f.name = "id") <;>
          simp [setMinimal, h1, h2] <;> decide
      · exact h.2 _ hmem

theorem minimalStore_balanced (sch : Schema) (tname : String) (st : Caches)
    (h : BalancedState st) :
    Balanced (minimalStore sch tname st).1 ∧
    BalancedState (minimalStore sch tname st).2 := by
  obtain ⟨h1, h2⟩ := getMinimal_balanced sch tname st h
  unfold minimalStore
  refine ⟨h1, ⟨?_, h2.2⟩⟩
  intro p hp
  rcases List.mem_cons.mp hp with he | hmem
  · subst he
    exact h1
  · exact h2.1 _ hmem

theorem balanced_glue {nm sel : String} (h1 : Balanced nm) (h2 : Balanced sel) :
    Balanced (nm ++ " " ++ sel) := by
  unfold Balanced at *
  simp only [String.data_append, List.count_append]
  have s1 : List.count '\x7b' [' '] = 0 := by decide
  have s2 : List.count '\x7d' [' '] = 0 := by decide
  have s3 : List.count '\x7b' (" " : String).data = 0 := by decide
  have s4 : List.count '\x7d' (" " : String).data = 0 := by decide
  omega

theorem balanced_glue_lit {nm lit : String} (h1 : Balanced nm) (h2 : Balanced lit) :
    Balanced (nm ++ " " ++ lit) := balanced_glue h1 h2

theorem fieldStep_balanced (sch : Schema) (tname : String)
    (rec : String → Caches → String × Caches)
    (hrec : ∀ n st', BalancedState st' →
      Balanced (rec n st').1 ∧ BalancedState (rec n st').2)
    (acc : List String × Caches) (fd : FieldDef)
    (hacc : ∀ e ∈ acc.1, Balanced e) (hst : BalancedState acc.2)
    (hfd : fd.name.data.count '\x7b' = 0 ∧ fd.name.data.count '\x7d' = 0) :
    (∀ e ∈ (fieldStep sch tname rec acc fd).1, Balanced e) ∧
    BalancedState (fieldStep sch tname rec acc fd).2 := by
  have hname : Balanced fd.name := by
    unfold Balanced
    omega
  unfold fieldStep
  cases hc : classifyCheckType sch (unwrapTriple fd.type) with
  | comp n =>
    by_cases he : n = tname
    · subst he
      obtain ⟨hm1, hm2⟩ := getMinimal_balanced sch n acc.2 hst
      rcases hp : getMinimalFieldSelection sch n acc.2 with ⟨x, st2⟩
      rw [hp] at hm1 hm2
      by_cases hx : x = ""
      · simp only [hc, hp, hx]
        exact ⟨fun e he' => hacc e (by simpa using he'), hm2⟩
      · simp only [hc, hp, if_neg hx]
        refine ⟨?_, hm2⟩
        intro e he'
        rcases List.mem_append.mp he' with hmem | hmem
        · exact hacc e hmem
        · rcases List.mem_singleton.mp hmem with rfl
          exact balanced_glue hname hm1
    · obtain ⟨hr1, hr2⟩ := hrec n acc.2 hst
      rcases hp : rec n acc.2 with ⟨s, st2⟩
      rw [hp] at hr1 hr2
      by_cases hs : s = ""
      · simp only [hc, he, hp, hs, if_pos]
        refine ⟨?_, hr2⟩
        intro e he'
        rcases List.mem_append.mp he' with hmem | hmem
        · exact hacc e hmem
        · rcases List.mem_singleton.mp hmem with rfl
          exact hname
      · simp only [hc, he, hp, if_neg hs]
        refine ⟨?_, hr2⟩
        intro e he'
        rcases List.mem_append.mp he' with hmem | hmem
        · exact hacc e hmem
        · rcases List.mem_singleton.mp hmem with rfl
          exact balanced_glue hname hr1
  | uni =>
    simp only [hc]
    refine ⟨?_, hst⟩
    intro e he'
    rcases List.mem_append.mp he' with hmem | hmem
    · exact hacc e hmem
    · rcases List.mem_singleton.mp hmem with rfl
      exact balanced_append hname (show Balanced " \x7b __typename \x7d" by decide)
  | other =>
    simp only [hc]
    refine ⟨?_, hst⟩
    intro e he'
    rcases List.mem_append.mp he' with hmem | hmem
    · exact hacc e hmem
    · rcases List.mem_singleton.mp hmem with rfl
      exact hname

theorem fold_balanced (sch : Schema) (tname : String)
    (rec : String → Caches → String × Caches)
    (hrec : ∀ n st', BalancedState st' →
      Balanced (rec n st').1 ∧ BalancedState (rec n st').2) :
    ∀ (flds : List FieldDef) (acc : List String × Caches),
      (∀ e ∈ acc.1, Balanced e) → BalancedState acc.2 →
      (∀ fd ∈ flds, fd.name.data.count '\x7b' = 0 ∧ fd.name.data.count '\x7d' = 0) →
      (∀ e ∈ (flds.foldl (fieldStep sch tname rec) acc).1, Balanced e) ∧
      BalancedState (flds.foldl (fieldStep sch tname rec) acc).2 := by
  intro flds
  induction flds with
  | nil => intro acc h1 h2 _; exact ⟨h1, h2⟩
  | cons fd rest ih =>
    intro acc h1 h2 hnames
    obtain ⟨h1', h2'⟩ := fieldStep_balanced sch tname rec hrec acc fd h1 h2
      (hnames fd (by simp))
    exact ih _ h1' h2' (fun f hf => hnames f (by simp [hf]))

theorem getFieldsOf_names (sch : Schema) (tname : String)
    (hn : NoBraceNames sch) :
    ∀ fd ∈ getFieldsOf sch tname,
      fd.name.data.count '\x7b' = 0 ∧ fd.name.data.count '\x7d' = 0 := by
  intro fd hfd
  unfold getFieldsOf at hfd
  cases hc : findType sch tname with
  | none => rw [hc] at hfd; simp at hfd
  | some td =>
    rw [hc] at hfd
    exact hn td (List.mem_of_find?_eq_some hc) fd hfd

theorem gfs_balanced (sch : Schema) (hn : NoBraceNames sch) :
    ∀ (fuel : Nat) (tname : String) (depth : Nat) (st : Caches),
      BalancedState st →
      Balanced (gfsAux sch fuel tname depth st).1 ∧
      BalancedState (gfsAux sch fuel tname depth st).2 := by
  intro fuel
  induction fuel with
  | zero =>
    intro tname depth st hb
    unfold gfsAux
    cases hc : alookup st.full tname with
    | some s => exact ⟨hb.1 _ (alookup_mem hc), hb⟩
    | none => exact minimalStore_balanced sch tname st hb
  | succ fuel' ih =>
    intro tname depth st hb
    unfold gfsAux
    cases hc : alookup st.full tname with
    | some s => exact ⟨hb.1 _ (alookup_mem hc), hb⟩
    | none =>
      by_cases hd : depth > 3
      · simp only [if_pos hd]
        exact minimalStore_balanced sch tname st hb
      · simp only [if_neg hd]
        obtain ⟨he, hs⟩ := fold_balanced sch tname
          (fun n st' => gfsAux sch fuel' n (depth + 1) st')
          (fun n st' h' => ih n (depth + 1) st' h')
          (getFieldsOf sch tname) ([], st) (by simp) hb
          (getFieldsOf_names sch tname hn)
        set acc := (getFieldsOf sch tname).foldl
          (fieldStep sch tname (fun n st' => gfsAux sch fuel' n (depth + 1) st'))
          ([], st) with hacc
        have hsel : Balanced (if acc.1.isEmpty then "" else braceJoin depth acc.1) := by
          by_cases hEmp : acc.1.isEmpty
          · rw [if_pos hEmp]
            decide
          · rw [if_neg hEmp]
            exact braceJoin_balanced he
        refine ⟨hsel, ⟨?_, hs.2⟩⟩
        intro p hp
        rcases List.mem_cons.mp hp with hpe | hmem
        · subst hpe
          exact hsel
        · exact hs.1 _ hmem

theorem genFieldSel_balanced (sch : Schema) (hn : NoBraceNames sch)
    (t : GType) (visited : List String) (depth : Nat) (st : Caches)
    (hb : BalancedState st) :
    Balanced (generateFieldSelection sch t visited depth st).1 := by
  unfold generateFieldSelection generateFullFieldSelection
  repeat' split
  all_goals
    first
    | exact (show Balanced "" by decide)
    | exact (show Balanced "\x7b __typename \x7d" by decide)
    | exact (getMinimal_balanced sch _ st hb).1
    | (rename_i hlook; exact hb.1 _ (alookup_mem hlook))
    | exact (gfs_balanced sch hn _ _ _ st hb).1

/-- Claim C5: selection synthesis always terminates (the Lean embedding
is a total function; the source recursion is bounded because `depth`
grows by one per unfolding) — once the depth ceiling is passed (`depth >
3`, i.e. beyond 4 levels) an uncached type gets the minimal selection
instead of unfolding further; and every generated selection string, and
every string either cache holds, has equal counts of opening and closing
braces. -/
theorem c5_theorem (sch : Schema) (fuel : Nat) (tname : String)
    (depth : Nat) (st : Caches) (t : GType) (visited : List String)
    (hn : NoBraceNames sch) (hb : BalancedState st) :
    (alookup st.full tname = none → depth > 3 →
      gfsAux sch fuel tname depth st = minimalStore sch tname st) ∧
    Balanced (gfsAux sch fuel tname depth st).1 ∧
    BalancedState (gfsAux sch fuel tname depth st).2 ∧
    Balanced (generateFieldSelection sch t visited depth st).1 := by
  refine ⟨?_, (gfs_balanced sch hn fuel tname depth st hb).1,
    (gfs_balanced sch hn fuel tname depth st hb).2,
    genFieldSel_balanced sch hn t visited depth st hb⟩
  intro hnone hd
  cases fuel with
  | zero => unfold gfsAux; rw [hnone]
  | succ fuel' => unfold gfsAux; rw [hnone]; simp [hd]

/-- Witness for the C5 theorem: the cycle schema, empty caches, and a
call beyond the ceiling. -/
theorem c5_witness :
    NoBraceNames cycleSchema ∧ BalancedState emptyCaches ∧
    Balanced (gfsAux cycleSchema 4 "User" 0 emptyCaches).1 ∧
    gfsAux cycleSchema 0 "Post" 4 emptyCaches =
      minimalStore cycleSchema "Post" emptyCaches := by
  refine ⟨by decide, by decide,
    (c5_theorem cycleSchema 4 "User" 0 emptyCaches (GType.named "User") []
      (by decide) (by decide)).2.1, ?_⟩
  exact (c5_theorem cycleSchema 0 "Post" 4 emptyCaches (GType.named "Post") []
    (by decide) (by decide)).1 (by decide) (by decide)

/-! ### Claim C2: no bare composite fields on well-formed schemas -/

theorem selGood_ne_empty {x : String} (h : selGood x = true) : x ≠ "" := by
  intro he
  subst he
  exact absurd h (by decide)

theorem classify_comp_composite {sch : Schema} {t : GType} {n : String}
    (h : classifyCheckType sch t = FieldKindView.comp n) :
    isCompositeName sch n = true := by
  cases t with
  | nonNull u => simp [classifyCheckType] at h
  | list u => simp [classifyCheckType] at h
  | named n' =>
    simp only [classifyCheckType] at h
    cases hf : findType sch n' with
    | none =>
      rw [hf] at h
      simp at h
    | some td =>
      rw [hf] at h
      cases hk : td.kind <;> simp [hk] at h <;> subst h <;>
        simp [isCompositeName, hf, hk]

theorem goodSchema_lookup {sch : Schema} {n : String} {td : TypeDef}
    (hg : goodSchema sch = true) (hf : findType sch n = some td)
    (hco : isCompositeName sch n = true) : goodType td = true := by
  have hmem : td ∈ sch.types := List.mem_of_find?_eq_some hf
  have hall := (List.all_eq_true.mp hg) td hmem
  unfold isCompositeName at hco
  rw [hf] at hco
  cases hk : td.kind <;> simp [hk] at hall hco <;> (try exact hall)

theorem getMinimal_selGood (sch : Schema) {n : String} (st : Caches)
    (hg : goodSchema sch = true) (hco : isCompositeName sch n = true)
    (hinv : SelInv st) :
    selGood (getMinimalFieldSelection sch n st).1 = true ∧
    SelInv (getMinimalFieldSelection sch n st).2 := by
  unfold getMinimalFieldSelection
  cases hc : alookup st.minimal n with
  | some m => exact ⟨hinv.2 _ (alookup_mem hc), hinv⟩
  | none =>
    obtain ⟨td, hf⟩ : ∃ td, findType sch n = some td := by
      unfold isCompositeName at hco
      cases hf : findType sch n with
      | none => rw [hf] at hco; exact absurd hco (by simp)
      | some td => exact ⟨td, rfl⟩
    have hgt := goodSchema_lookup hg hf hco
    have hflds : getFieldsOf sch n = td.fields := by
      unfold getFieldsOf
      rw [hf]
    unfold goodType at hgt
    have hdisj : td.fields.any (fun f => f.name = "documentId") = true ∨
        td.fields.any (fun f => f.name = "id") = true := by
      rw [Bool.and_eq_true] at hgt
      obtain ⟨_, hor⟩ := hgt
      rw [Bool.or_eq_true] at hor
      exact hor
    have hsel : selGood
        (if (getFieldsOf sch n).any (fun f => f.name = "documentId") then
          "\x7b documentId \x7d"
         else if (getFieldsOf sch n).any (fun f => f.name = "id") then
          "\x7b id \x7d"
         else "") = true := by
      rw [hflds]
      rcases hdisj with h1 | h1
      · rw [if_pos h1]
        decide
      · by_cases h0 : td.fields.any (fun f => f.name = "documentId")
        · rw [if_pos h0]
          decide
        · rw [if_neg h0, if_pos h1]
          decide
    refine ⟨hsel, ⟨hinv.1, ?_⟩⟩
    intro p hp
    rcases List.mem_cons.mp hp with hpe | hmem
    · subst hpe
      exact hsel
    · exact hinv.2 _ hmem

theorem selGood_braceJoin (depth : Nat) (entries : List String) :
    selGood (braceJoin depth entries) = true := by
  unfold selGood strStarts braceJoin
  simp only [String.data_append]
  simp [matchesAt, List.cons_append, List.append_assoc]

theorem fold_entries_good (sch : Schema) (tname : String)
    (hg : goodSchema sch = true)
    (rec : String → Caches → String × Caches)
    (hrec : ∀ n st', isCompositeName sch n = true → SelInv st' →
      selGood (rec n st').1 = true ∧ SelInv (rec n st').2) :
    ∀ (flds : List FieldDef) (acc : List String × Caches), SelInv acc.2 →
      ∃ newE, (flds.foldl (fieldStep sch tname rec) acc).1 = acc.1 ++ newE ∧
        List.Forall₂ (entryPred sch) flds newE ∧
        SelInv (flds.foldl (fieldStep sch tname rec) acc).2 := by
  intro flds
  induction flds with
  | nil =>
    intro acc hinv
    exact ⟨[], by simp, List.Forall₂.nil, hinv⟩
  | cons fd rest ih =>
    intro acc hinv
    cases hc : classifyCheckType sch (unwrapTriple fd.type) with
    | comp n =>
      have hcomp := classify_comp_composite hc
      by_cases he : n = tname
      · subst he
        obtain ⟨hm1, hm2⟩ := getMinimal_selGood sch acc.2 hg hcomp hinv
        rcases hp : getMinimalFieldSelection sch n acc.2 with ⟨x, st2⟩
        rw [hp] at hm1 hm2
        have hx : ¬x = "" := selGood_ne_empty hm1
        have hstep : fieldStep sch n rec acc fd =
            (acc.1 ++ [fd.name ++ " " ++ x], st2) := by
          simp [fieldStep, hc, hp, hx]
        obtain ⟨newE, hE1, hE2, hE3⟩ := ih (acc.1 ++ [fd.name ++ " " ++ x], st2)
          (by exact hm2)
        refine ⟨(fd.name ++ " " ++ x) :: newE, ?_, ?_, ?_⟩
        · simp only [List.foldl_cons, hstep]
          rw [hE1]
          simp
        · refine List.Forall₂.cons ?_ hE2
          intro n' hn'
          rw [hc] at hn'
          cases hn'
          exact ⟨x, hm1, rfl⟩
        · simpa only [List.foldl_cons, hstep] using hE3
      · obtain ⟨hr1, hr2⟩ := hrec n acc.2 hcomp hinv
        rcases hp : rec n acc.2 with ⟨x, st2⟩
        rw [hp] at hr1 hr2
        have hx : ¬x = "" := selGood_ne_empty hr1
        have hstep : fieldStep sch tname rec acc fd =
            (acc.1 ++ [fd.name ++ " " ++ x], st2) := by
          simp [fieldStep, hc, he, hp, hx]
        obtain ⟨newE, hE1, hE2, hE3⟩ := ih (acc.1 ++ [fd.name ++ " " ++ x], st2)
          (by exact hr2)
        refine ⟨(fd.name ++ " " ++ x) :: newE, ?_, ?_, ?_⟩
        · simp only [List.foldl_cons, hstep]
          rw [hE1]
          simp
        · refine List.Forall₂.cons ?_ hE2
          intro n' hn'
          rw [hc] at hn'
          cases hn'
          exact ⟨x, hr1, rfl⟩
        · simpa only [List.foldl_cons, hstep] using hE3
    | uni =>
      have hstep : fieldStep sch tname rec acc fd =
          (acc.1 ++ [fd.name ++ " \x7b __typename \x7d"], acc.2) := by
        simp [fieldStep, hc]
      obtain ⟨newE, hE1, hE2, hE3⟩ :=
        ih (acc.1 ++ [fd.name ++ " \x7b __typename \x7d"], acc.2) hinv
      refine ⟨(fd.name ++ " \x7b __typename \x7d") :: newE, ?_, ?_, ?_⟩
      · simp only [List.foldl_cons, hstep]
        rw [hE1]
        simp
      · refine List.Forall₂.cons ?_ hE2
        intro n' hn'
        rw [hc] at hn'
        cases hn'
      · simpa only [List.foldl_cons, hstep] using hE3
    | other =>
      have hstep : fieldStep sch tname rec acc fd = (acc.1 ++ [fd.name], acc.2) := by
        simp [fieldStep, hc]
      obtain ⟨newE, hE1, hE2, hE3⟩ := ih (acc.1 ++ [fd.name], acc.2) hinv
      refine ⟨fd.name :: newE, ?_, ?_, ?_⟩
      · simp only [List.foldl_cons, hstep]
        rw [hE1]
        simp
      · refine List.Forall₂.cons ?_ hE2
        intro n' hn'
        rw [hc] at hn'
        cases hn'
      · simpa only [List.foldl_cons, hstep] using hE3

theorem gfs_selGood (sch : Schema) (hg : goodSchema sch = true) :
    ∀ (fuel : Nat) (tname : String) (depth : Nat) (st : Caches),
      isCompositeName sch tname = true → SelInv st →
      selGood (gfsAux sch fuel tname depth st).1 = true ∧
      SelInv (gfsAux sch fuel tname depth st).2 := by
  intro fuel
  induction fuel with
  | zero =>
    intro tname depth st hco hinv
    unfold gfsAux
    cases hc : alookup st.full tname with
    | some v => exact ⟨hinv.1 _ (alookup_mem hc), hinv⟩
    | none =>
      obtain ⟨hm1, hm2⟩ := getMinimal_selGood sch st hg hco hinv
      rcases hp : getMinimalFieldSelection sch tname st with ⟨x, st2⟩
      rw [hp] at hm1 hm2
      unfold minimalStore
      rw [hp]
      refine ⟨hm1, ⟨?_, hm2.2⟩⟩
      intro p hp'
      rcases List.mem_cons.mp hp' with hpe | hmem
      · subst hpe
        exact hm1
      · exact hm2.1 _ hmem
  | succ fuel' ih =>
    intro tname depth st hco hinv
    unfold gfsAux
    cases hc : alookup st.full tname with
    | some v => exact ⟨hinv.1 _ (alookup_mem hc), hinv⟩
    | none =>
      by_cases hd : depth > 3
      · simp only [if_pos hd]
        obtain ⟨hm1, hm2⟩ := getMinimal_selGood sch st hg hco hinv
        rcases hp : getMinimalFieldSelection sch tname st with ⟨x, st2⟩
        rw [hp] at hm1 hm2
        unfold minimalStore
        rw [hp]
        refine ⟨hm1, ⟨?_, hm2.2⟩⟩
        intro p hp'
        rcases List.mem_cons.mp hp' with hpe | hmem
        · subst hpe
          exact hm1
        · exact hm2.1 _ hmem
      · simp only [if_neg hd]
        obtain ⟨newE, hE1, hE2, hE3⟩ := fold_entries_good sch tname hg
          (fun n st' => gfsAux sch fuel' n (depth + 1) st')
          (fun n st' hco' hinv' => ih n (depth + 1) st' hco' hinv')
          (getFieldsOf sch tname) ([], st) hinv
        obtain ⟨td, hf⟩ : ∃ td, findType sch tname = some td := by
          unfold isCompositeName at hco
          cases hf : findType sch tname with
          | none => rw [hf] at hco; exact absurd hco (by simp)
          | some td => exact ⟨td, rfl⟩
        have hflds : getFieldsOf sch tname = td.fields := by
          unfold getFieldsOf
          rw [hf]
        have hne : td.fields ≠ [] := by
          have hgt := goodSchema_lookup hg hf hco
          unfold goodType at hgt
          rw [Bool.and_eq_true] at hgt
          obtain ⟨h1, _⟩ := hgt
          intro hnil
          rw [hnil] at h1
          exact absurd h1 (by decide)
        have hlen := hE2.length_eq
        have hnewE : newE ≠ [] := by
          intro hnil
          rw [hnil] at hlen
          rw [hflds] at hlen
          exact hne (List.length_eq_zero.mp hlen)
        set acc := (getFieldsOf sch tname).foldl
          (fieldStep sch tname (fun n st' => gfsAux sch fuel' n (depth + 1) st'))
          ([], st) with hacc
        have hacc1 : acc.1 = newE := by
          rw [hE1]
          simp
        have hempty : acc.1.isEmpty = false := by
          rw [hacc1]
          cases newE with
          | nil => exact absurd rfl hnewE
          | cons a l => rfl
        rw [hempty]
        simp only [Bool.false_eq_true, if_false]
        refine ⟨selGood_braceJoin depth acc.1, ⟨?_, hE3.2⟩⟩
        intro p hp'
        rcases List.mem_cons.mp hp' with hpe | hmem
        · subst hpe
          exact selGood_braceJoin depth acc.1
        · exact hE3.1 _ hmem

/-- Claim C2 (amended): on every schema whose OBJECT/INTERFACE types all
have at least one field and an `id` or `documentId` field, no generated
selection contains a bare composite field — the synthesizer's output and
every cache value open with a brace, and in the emitted field-entry list
every field whose stripped type is OBJECT/INTERFACE carries a (full or
minimal) sub-selection after its name.  (Without that hypothesis the
fallback to a bare field name can fire — see the counterexample.) -/
theorem c2_amended_theorem (sch : Schema) (fuel depth : Nat) (tname : String)
    (st : Caches) (hg : goodSchema sch = true)
    (hco : isCompositeName sch tname = true) (hinv : SelInv st) :
    (selGood (gfsAux sch fuel tname depth st).1 = true ∧
     SelInv (gfsAux sch fuel tname depth st).2) ∧
    List.Forall₂ (entryPred sch) (getFieldsOf sch tname)
      ((getFieldsOf sch tname).foldl
        (fieldStep sch tname (fun n st' => gfsAux sch fuel n (depth + 1) st'))
        ([], st)).1 := by
  refine ⟨gfs_selGood sch hg fuel tname depth st hco hinv, ?_⟩
  obtain ⟨newE, hE1, hE2, _⟩ := fold_entries_good sch tname hg
    (fun n st' => gfsAux sch fuel n (depth + 1) st')
    (fun n st' hco' hinv' => gfs_selGood sch hg fuel n (depth + 1) st' hco' hinv')
    (getFieldsOf sch tname) ([], st) hinv
  rw [hE1]
  simpa using hE2

/-- Witness for the amended C2 theorem on the two-type cycle whose types
both expose `id`. -/
theorem c2_amended_witness :
    goodSchema pairedSchema = true ∧
    isCompositeName pairedSchema "A" = true ∧
    SelInv emptyCaches ∧
    selGood (gfsAux pairedSchema 4 "A" 0 emptyCaches).1 = true := by
  refine ⟨by decide, by decide, by decide, ?_⟩
  exact (c2_amended_theorem pairedSchema 4 0 "A" emptyCaches (by decide)
    (by decide) (by decide)).1.1

/-! ### Claim C8: operation naming and uniqueness -/

theorem buildToolsFor_names (sch : Schema) (op : String) :
    ∀ (flds : List FieldDef) (start : List MCPTool × Caches),
      ((buildToolsFor sch op flds start).1).map (fun t => t.name) =
        start.1.map (fun t => t.name) ++ flds.map (fun fd => op ++ "_" ++ fd.name) := by
  intro flds
  induction flds with
  | nil =>
    intro start
    simp [buildToolsFor]
  | cons fd rest ih =>
    intro start
    unfold buildToolsFor at ih ⊢
    rw [List.foldl_cons]
    rw [ih]
    simp [generateToolForField]

theorem prefix_append_injective (p : String) {a b : String}
    (h : p ++ a = p ++ b) : a = b := by
  have hd := congrArg String.data h
  rw [String.data_append, String.data_append] at hd
  exact String.ext (List.append_cancel_left hd)

theorem query_ne_mutation (a b : String) :
    ("query_" ++ a : String) ≠ "mutation_" ++ b := by
  intro h
  have hd := congrArg String.data h
  rw [String.data_append, String.data_append] at hd
  simp at hd

/-- Claim C8: every generated descriptor is named `<kind>_<fieldName>`
(`query` for root Query fields, `mutation` for root Mutation fields, in
root-field order), and — because field names are unique within each root
type and the kind prefixes differ — the full name set of one build has
no duplicates. -/
theorem c8_theorem (sch : Schema) (st : Caches)
    (hq : ((rootFields sch sch.queryType).map (fun fd => fd.name)).Nodup)
    (hm : ((rootFields sch sch.mutationType).map (fun fd => fd.name)).Nodup) :
    ((generateMCPToolsFromSchema sch st).1.map (fun t => t.name)) =
      (rootFields sch sch.queryType).map (fun fd => "query_" ++ fd.name) ++
      (rootFields sch sch.mutationType).map (fun fd => "mutation_" ++ fd.name) ∧
    ((generateMCPToolsFromSchema sch st).1.map (fun t => t.name)).Nodup := by
  have hnames : ((generateMCPToolsFromSchema sch st).1.map (fun t => t.name)) =
      (rootFields sch sch.queryType).map (fun fd => "query_" ++ fd.name) ++
      (rootFields sch sch.mutationType).map (fun fd => "mutation_" ++ fd.name) := by
    unfold generateMCPToolsFromSchema
    rw [buildToolsFor_names, buildToolsFor_names]
    simp
  refine ⟨hnames, ?_⟩
  rw [hnames]
  have hq' : ((rootFields sch sch.queryType).map (fun fd => "query_" ++ fd.name)).Nodup := by
    have : (rootFields sch sch.queryType).map (fun fd => "query_" ++ fd.name) =
        ((rootFields sch sch.queryType).map (fun fd => fd.name)).map
          (fun s => "query_" ++ s) := by
      rw [List.map_map]
      rfl
    rw [this]
    exact hq.map (fun a b hab => prefix_append_injective "query_" hab)
  have hm' : ((rootFields sch sch.mutationType).map (fun fd => "mutation_" ++ fd.name)).Nodup := by
    have : (rootFields sch sch.mutationType).map (fun fd => "mutation_" ++ fd.name) =
        ((rootFields sch sch.mutationType).map (fun fd => fd.name)).map
          (fun s => "mutation_" ++ s) := by
      rw [List.map_map]
      rfl
    rw [this]
    exact hm.map (fun a b hab => prefix_append_injective "mutation_" hab)
  rw [List.nodup_append]
  refine ⟨hq', hm', ?_⟩
  intro x hx hy
  rcases List.mem_map.mp hx with ⟨fd1, _, rfl⟩
  rcases List.mem_map.mp hy with ⟨fd2, _, heq⟩
  exact query_ne_mutation fd1.name fd2.name heq.symm

/-- Witness for the C8 theorem on the cycle schema. -/
theorem c8_witness :
    ((rootFields cycleSchema cycleSchema.queryType).map (fun fd => fd.name)).Nodup ∧
    ((rootFields cycleSchema cycleSchema.mutationType).map (fun fd => fd.name)).Nodup ∧
    ((generateMCPToolsFromSchema cycleSchema emptyCaches).1.map (fun t => t.name)) =
      ["query_user"] ∧
    ((generateMCPToolsFromSchema cycleSchema emptyCaches).1.map (fun t => t.name)).Nodup := by
  have h := c8_theorem cycleSchema emptyCaches (by decide) (by decide)
  exact ⟨by decide, by decide, h.1.trans (by decide), h.2⟩

/-! ### Remaining witnesses -/

/-- Witness for the C4 theorem: the non-null-with-default input field
`x` of `inputDefaultSchema`. -/
theorem c4_witness :
    (generateToolForField inputDefaultSchema "createUser"
      ⟨"createUser", GType.named "User",
        [⟨"input", GType.nonNull (GType.named "CreateUserInput"), false⟩], none⟩
      "mutation" emptyCaches).1.required = ["input"] ∧
    nestedReq (getJSONSchemaType inputDefaultSchema (4 + 1)
      (GType.named "CreateUserInput") []) = ["x", "z"] := by
  have h := c4_theorem inputDefaultSchema "createUser"
    ⟨"createUser", GType.named "User",
      [⟨"input", GType.nonNull (GType.named "CreateUserInput"), false⟩], none⟩
    "mutation" emptyCaches "CreateUserInput"
    ⟨"CreateUserInput", TypeKind.inputObject, [], [],
      [⟨"x", GType.nonNull (GType.named "String"), true⟩,
       ⟨"y", GType.named "Int", false⟩,
       ⟨"z", GType.nonNull (GType.named "Int"), false⟩]⟩
    [] 4 (by decide) (by decide) (by decide)
  refine ⟨h.1.trans (by decide), ?_⟩
  rw [h.2]
  decide

/-- Witness for the C6 theorem: both required values live only on the
prototype chain, so the call fails with the structured message naming
every missing parameter. -/
theorem c6_witness :
    List.find? (fun t => t.name = "query_user") [demoTool] = some demoTool ∧
    validateRequiredParameters demoTool
      (ArgsParam.objA ⟨[], [("a", JSValue.strV "x"), ("b", JSValue.strV "y")]⟩) ≠ [] ∧
    callTool [demoTool] "query_user"
      (ArgsParam.objA ⟨[], [("a", JSValue.strV "x"), ("b", JSValue.strV "y")]⟩)
      (fun _ _ => Except.ok "ok") =
      ⟨"Error executing query_user: Missing required parameters: a, b, c, d", true⟩ := by
  refine ⟨rfl, by decide, ?_⟩
  have h := (c6_theorem [demoTool] "query_user"
    (ArgsParam.objA ⟨[], [("a", JSValue.strV "x"), ("b", JSValue.strV "y")]⟩)
    demoTool (fun _ _ => Except.ok "ok") rfl (by decide)).1
  exact h.trans (by decide)

/-- Witness for the C10 theorem: the falsy-but-present values `""`,
`false`, `0` and `NaN` all pass validation and the call reaches the
upstream client. -/
theorem c10_witness :
    validateRequiredParameters demoTool
      (ArgsParam.objA ⟨[("a", JSValue.strV ""), ("b", JSValue.boolV false),
        ("c", JSValue.numV 0), ("d", JSValue.nanV)], []⟩) = [] ∧
    callTool [demoTool] "query_user"
      (ArgsParam.objA ⟨[("a", JSValue.strV ""), ("b", JSValue.boolV false),
        ("c", JSValue.numV 0), ("d", JSValue.nanV)], []⟩)
      (fun _ _ => Except.ok "payload") = ⟨"payload", false⟩ := by
  have h := c10_theorem [demoTool] "query_user"
    ⟨[("a", JSValue.strV ""), ("b", JSValue.boolV false),
      ("c", JSValue.numV 0), ("d", JSValue.nanV)], []⟩
    demoTool (fun _ _ => Except.ok "payload") rfl ?hall
  case hall =>
    intro p hp
    simp [demoTool] at hp
    rcases hp with rfl | rfl | rfl | rfl
    · exact ⟨JSValue.strV "", rfl, rfl⟩
    · exact ⟨JSValue.boolV false, rfl, rfl⟩
    · exact ⟨JSValue.numV 0, rfl, rfl⟩
    · exact ⟨JSValue.nanV, rfl, rfl⟩
  exact ⟨h.1, h.2.trans rfl⟩

/-- Witness for the C9 theorem at the doubly-nested list type
`[[User!]!]`. -/
theorem c9_witness :
    unwrapTriple (GType.list (GType.nonNull (GType.list (GType.nonNull
      (GType.named "User"))))) =
      GType.list (GType.nonNull (GType.named "User")) ∧
    generateFieldSelection cycleSchema
      (GType.list (GType.nonNull (GType.list (GType.nonNull (GType.named "User")))))
      [] 0 emptyCaches = ("", emptyCaches) ∧
    fieldStep cycleSchema "Board" (fun _ st => ("", st)) ([], emptyCaches)
      ⟨"grid", GType.list (GType.nonNull (GType.list (GType.nonNull
        (GType.named "User")))), [], none⟩ = (["grid"], emptyCaches) := by
  have h := c9_theorem cycleSchema
    (GType.list (GType.nonNull (GType.list (GType.nonNull (GType.named "User")))))
    (GType.nonNull (GType.named "User")) [] 0 emptyCaches "Board"
    (fun _ st => ("", st)) ([], emptyCaches)
    ⟨"grid", GType.list (GType.nonNull (GType.list (GType.nonNull
      (GType.named "User")))), [], none⟩
    (by decide)
  exact ⟨by decide, h.1, (h.2 rfl).trans rfl⟩

end GraphQLForge
